import Mathlib

set_option maxRecDepth 100000

/-!
Shallow embedding of the tkrzw low-level file-access layer: the hash toolkit
(`tkrzw_hash_util.h`) and the block-aligned file backends (`tkrzw_file_block.h`,
`tkrzw_file_std.h`).  The repository sources contain only the `tkrzw_file_block.h`
interface and the unit tests; the implementations are modelled from the
specification, with every hash algorithm pinned against the literal test vectors
of `tkrzw_hash_util_test.cc`.
-/

/-- Byte buffers (`std::string_view` / `const void*` + size) are lists of naturals;
each read masks with `% 256`, the `unsigned char` access of the source. -/
abbrev Bytes := List Nat

/-- Reduction modulo `2 ^ 64`: the `uint64_t` arithmetic of the source. -/
def w64 (n : Nat) : Nat := n % 18446744073709551616

/-- The Murmur multiplication constant `0xc6a4a7935bd1e995`. -/
def murmurMul : Nat := 0xc6a4a7935bd1e995

/-- Little-endian value of a byte list, each byte masked to 8 bits.  Used both for
the 64-bit word loads and for the tail bytes of Murmur hashing (the tail bytes are
xor-ed into disjoint bit ranges, which equals this sum). -/
def leBytes : Bytes → Nat
  | [] => 0
  | b :: rest => b % 256 + 256 * leBytes rest

/-- Mixing of one 64-bit little-endian word in Murmur hashing:
`num *= mul; num ^= num >> 47; num *= mul`. -/
def murmurMixWord (k : Nat) : Nat :=
  let k1 := w64 (k * murmurMul)
  let k2 := k1 ^^^ (k1 >>> 47)
  w64 (k2 * murmurMul)

/-- Main loop of Murmur hashing: fold full 8-byte words with
`hash *= mul; hash ^= num`, then fold the remaining tail bytes (if any) with
`hash ^= tail bits; hash *= mul`. -/
def murmurGo : Nat → Bytes → Nat
  | hash, b0 :: b1 :: b2 :: b3 :: b4 :: b5 :: b6 :: b7 :: rest =>
      murmurGo (w64 (hash * murmurMul) ^^^ murmurMixWord (leBytes [b0, b1, b2, b3, b4, b5, b6, b7])) rest
  | hash, [] => hash
  | hash, tail => w64 ((hash ^^^ leBytes tail) * murmurMul)

/-- Final avalanche of Murmur hashing:
`hash ^= hash >> 47; hash *= mul; hash ^= hash >> 47`. -/
def murmurFinal (h : Nat) : Nat :=
  let h1 := h ^^^ (h >>> 47)
  let h2 := w64 (h1 * murmurMul)
  h2 ^^^ (h2 >>> 47)

/-- Modelled from the spec: the one-shot `HashMurmur` of `tkrzw_hash_util.h`, whose
implementation is absent from the sources - the standard multiply-mix-rotate
construction over little-endian 64-bit words seeded with `seed ^ (size * mul)`,
pinned by all three Murmur test vectors of `tkrzw_hash_util_test.cc`. -/
def HashMurmur (data : Bytes) (seed : Nat) : Nat :=
  murmurFinal (murmurGo (w64 seed ^^^ w64 (data.length * murmurMul)) data)

/-- One byte step of FNV hashing: `hash = (hash ^ byte) * 109951162811` in 64 bits. -/
def fnvUpdate (h b : Nat) : Nat := w64 ((h ^^^ (b % 256)) * 109951162811)

/-- The FNV initial state `14695981039346656037`. -/
def fnvInit : Nat := 14695981039346656037

/-- Modelled from the spec: the one-shot `HashFNV` of `tkrzw_hash_util.h`, absent
from the sources - 64-bit FNV folding each byte, pinned by all three FNV test
vectors of `tkrzw_hash_util_test.cc`. -/
def HashFNV (data : Bytes) : Nat := data.foldl fnvUpdate fnvInit

/-- One bit step of CRC-32: shift right, conditionally xor the reflected
polynomial `0xEDB88320`. -/
def crc32Step (c : Nat) : Nat :=
  if c % 2 = 1 then (c >>> 1) ^^^ 0xEDB88320 else c >>> 1

/-- One byte step of CRC-32: xor the byte into the low bits, then eight bit steps. -/
def crc32Byte (c b : Nat) : Nat :=
  crc32Step (crc32Step (crc32Step (crc32Step
    (crc32Step (crc32Step (crc32Step (crc32Step (c ^^^ (b % 256)))))))))

/-- Modelled from the spec: `HashCRC32Continuous` of `tkrzw_hash_util.h`, absent
from the sources - folds the bytes into the running register seeded by `seed`
(default `0xFFFFFFFF`); when `is_last` is true the register is finalized by the
output xor `0xFFFFFFFF`, otherwise the raw register is the next prior state. -/
def HashCRC32Continuous (data : Bytes) (is_last : Bool) (seed : Nat) : Nat :=
  let reg := data.foldl crc32Byte seed
  if is_last then reg ^^^ 0xFFFFFFFF else reg

/-- The one-shot `HashCRC32`: the continuous form over the whole buffer with the
initial state and finalization. -/
def HashCRC32 (data : Bytes) : Nat := HashCRC32Continuous data true 0xFFFFFFFF

/-- One bit step of CRC-16 (XMODEM): shift left, conditionally xor `0x1021`. -/
def crc16Step (c : Nat) : Nat :=
  if c &&& 0x8000 = 0 then (c <<< 1) % 65536 else ((c <<< 1) ^^^ 0x1021) % 65536

/-- One byte step of CRC-16: xor the byte into the high bits, then eight bit steps. -/
def crc16Byte (c b : Nat) : Nat :=
  crc16Step (crc16Step (crc16Step (crc16Step
    (crc16Step (crc16Step (crc16Step (crc16Step (c ^^^ ((b % 256) <<< 8)))))))))

/-- Modelled from the spec: `HashCRC16Continuous` of `tkrzw_hash_util.h`, absent
from the sources - folds the bytes into the running register seeded by `seed`
(default 0); CRC-16 has no output transformation, so `is_last` returns the
register unchanged. -/
def HashCRC16Continuous (data : Bytes) (is_last : Bool) (seed : Nat) : Nat :=
  data.foldl crc16Byte seed

/-- The one-shot `HashCRC16`. -/
def HashCRC16 (data : Bytes) : Nat := HashCRC16Continuous data true 0

/-- One bit step of CRC-8: shift left, conditionally xor the polynomial `0x07`. -/
def crc8Step (c : Nat) : Nat :=
  if c &&& 0x80 = 0 then (c <<< 1) % 256 else ((c <<< 1) ^^^ 0x07) % 256

/-- One byte step of CRC-8: xor the byte in, then eight bit steps. -/
def crc8Byte (c b : Nat) : Nat :=
  crc8Step (crc8Step (crc8Step (crc8Step
    (crc8Step (crc8Step (crc8Step (crc8Step (c ^^^ (b % 256)))))))))

/-- Modelled from the spec: `HashCRC8Continuous` of `tkrzw_hash_util.h`, absent
from the sources - folds the bytes into the running register seeded by `seed`
(default 0); no output transformation. -/
def HashCRC8Continuous (data : Bytes) (is_last : Bool) (seed : Nat) : Nat :=
  data.foldl crc8Byte seed

/-- The one-shot `HashCRC8`. -/
def HashCRC8 (data : Bytes) : Nat := HashCRC8Continuous data true 0

/-- One bit step of CRC-4 (reflected, polynomial `0xC`): compare the register's low
bit with the incoming data bit, shift right, conditionally xor. -/
def crc4Bit (c bit : Nat) : Nat :=
  if (c ^^^ bit) % 2 = 1 then (c >>> 1) ^^^ 0xC else c >>> 1

/-- One byte step of CRC-4: feed the eight data bits least-significant first. -/
def crc4Byte (c b : Nat) : Nat :=
  let b := b % 256
  let c1 := crc4Bit c (b % 2)
  let c2 := crc4Bit c1 ((b >>> 1) % 2)
  let c3 := crc4Bit c2 ((b >>> 2) % 2)
  let c4 := crc4Bit c3 ((b >>> 3) % 2)
  let c5 := crc4Bit c4 ((b >>> 4) % 2)
  let c6 := crc4Bit c5 ((b >>> 5) % 2)
  let c7 := crc4Bit c6 ((b >>> 6) % 2)
  crc4Bit c7 ((b >>> 7) % 2)

/-- Modelled from the spec: `HashCRC4Continuous` of `tkrzw_hash_util.h`, absent
from the sources - folds the bytes into the running register seeded by `seed`
(default 0); no output transformation. -/
def HashCRC4Continuous (data : Bytes) (is_last : Bool) (seed : Nat) : Nat :=
  data.foldl crc4Byte seed

/-- The one-shot `HashCRC4`. -/
def HashCRC4 (data : Bytes) : Nat := HashCRC4Continuous data true 0

/-- Modelled from the spec: the streaming Hash State for Murmur hashing (spec §3:
an "opaque accumulator ... carrying partial digest bits"), for the
`HashMurmurContinuous` form asserted by spec §4.3 and absent from the sources.
The one-shot Murmur construction mixes the total buffer length into its initial
state, so the opaque accumulator must carry the seed together with the bytes
folded so far. -/
structure MurmurState where
  seed : Nat
  pending : Bytes
deriving DecidableEq

/-- Result of one streaming Murmur call: an intermediate state usable as the next
prior state, or the finalized digest (spec §4.3: `(partial_digest | final_digest)`). -/
inductive MurmurCont where
  | more (st : MurmurState)
  | done (digest : Nat)
deriving DecidableEq

/-- Modelled from the spec: `HashMurmurContinuous` (spec §4.3) - folds the chunk
into the accumulator; when `is_last` is true it returns the digest the one-shot
form produces over the full concatenation. -/
def HashMurmurContinuous (data : Bytes) (is_last : Bool) (prior : MurmurState) :
    MurmurCont :=
  if is_last then .done (HashMurmur (prior.pending ++ data) prior.seed)
  else .more ⟨prior.seed, prior.pending ++ data⟩

/-- Modelled from the spec: `HashFNVContinuous` (spec §4.3), absent from the
sources - folds the bytes into the running 64-bit register seeded by `seed`
(default `fnvInit`); FNV has no finalization, so `is_last` returns the register
unchanged. -/
def HashFNVContinuous (data : Bytes) (is_last : Bool) (seed : Nat) : Nat :=
  data.foldl fnvUpdate seed

/-- Fold a partition C1..Cn through a register-style continuous hash form, passing
each intermediate result as the next prior state and setting the last flag only on
the final chunk (for the empty partition, one finalizing call on the empty chunk). -/
def foldContinuous (cont : Bytes → Bool → Nat → Nat) : Nat → List Bytes → Nat
  | st, [] => cont [] true st
  | st, [c] => cont c true st
  | st, c :: rest => foldContinuous cont (cont c false st) rest

/-- Fold a partition through the streaming Murmur form, threading the opaque
accumulator and finalizing only on the last chunk. -/
def murmurFoldChunks : MurmurState → List Bytes → MurmurCont
  | st, [] => HashMurmurContinuous [] true st
  | st, [c] => HashMurmurContinuous c true st
  | st, c :: rest =>
      match HashMurmurContinuous c false st with
      | .more st2 => murmurFoldChunks st2 rest
      | .done d => .done d

/-- ASCII strings as byte buffers (all test-vector strings used here are ASCII). -/
def asciiBytes (s : String) : Bytes := s.toList.map Char.toNat

/-- Result status of the file operations: the `tkrzw::Status` codes this layer
uses (spec §7). -/
inductive Status where
  | SUCCESS
  | NOT_FOUND_ERROR
  | ALREADY_OPEN_ERROR
  | NOT_OPEN_ERROR
  | INVALID_STATE_ERROR
  | OUT_OF_RANGE_ERROR
  | LOCK_ERROR
  | IO_ERROR
deriving DecidableEq

/-- Allocation strategy (spec §3 Allocation Record): initial allocation size and
growth factor, consulted when the logical size would exceed the physical size.
The growth factor (a `double` in `SetAllocationStrategy`, default 2) is modelled
as a natural number. -/
structure AllocStrategy where
  initSize : Nat
  incFactor : Nat
deriving DecidableEq

/-- Modelled from the spec: the state behind a block-aligned file handle
(`BlockParallelFileImpl` / `BlockAtomicFileImpl`, absent from the sources) -
spec §3 File Handle: open and writable flags, path, block size fixed at open time
(default 512), logical content (its length is the logical size), physical size,
and the allocation strategy. -/
structure BlockFile where
  isOpen : Bool
  writable : Bool
  path : String
  blockSize : Nat
  content : Bytes
  physSize : Nat
  alloc : AllocStrategy
deriving DecidableEq

/-- Round `n` up to the next multiple of the block size `bs`. -/
def alignUp (bs n : Nat) : Nat := (n + bs - 1) / bs * bs

/-- Physical growth via the Allocation Strategy (spec §3): when the needed size
exceeds the physical size, the next physical size is
`max(needed, physical_size * growth_factor)` rounded up to block alignment. -/
def BlockFile.growPhys (f : BlockFile) (needed : Nat) : Nat :=
  if needed ≤ f.physSize then f.physSize
  else alignUp f.blockSize (max needed (f.physSize * f.alloc.incFactor))

/-- Zero-fill a logical byte sequence up to length `n` (spec §4.1 Expand and
§8: newly exposed bytes are zero-filled). -/
def padTo (content : Bytes) (n : Nat) : Bytes :=
  content ++ List.replicate (n - content.length) 0

/-- Store `data` at offset `off` in a logical byte sequence, zero-filling any gap
and extending the length to at least `off + |data|` (spec §4.1 Write). -/
def storeBytes (content : Bytes) (off : Nat) (data : Bytes) : Bytes :=
  (padTo content (off + data.length)).take off ++ data
    ++ (padTo content (off + data.length)).drop (off + data.length)

/-- Modelled from the spec: `Open` (spec §4.1) - fails with `ALREADY_OPEN_ERROR`
if called twice without Close; a missing path requires `writable` (create),
otherwise `NOT_FOUND_ERROR`; an existing file's bytes become the logical content
and the physical size is its block-aligned cover. -/
def BlockFile.Open (f : BlockFile) (path : String) (writable : Bool)
    (existing : Option Bytes) : Status × BlockFile :=
  if f.isOpen then (.ALREADY_OPEN_ERROR, f)
  else
    match existing with
    | none =>
        if writable then
          (.SUCCESS, { f with isOpen := true, writable := true, path := path,
                              content := [], physSize := 0 })
        else (.NOT_FOUND_ERROR, f)
    | some bytes =>
        (.SUCCESS, { f with isOpen := true, writable := writable, path := path,
                            content := bytes,
                            physSize := alignUp f.blockSize bytes.length })

/-- Modelled from the spec: `Read` (spec §4.1) - fails with `OUT_OF_RANGE_ERROR`
if offset+size exceeds the logical size; reading never changes the handle, in
particular it never extends the physical size. -/
def BlockFile.Read (f : BlockFile) (off size : Nat) : Status × Bytes × BlockFile :=
  if !f.isOpen then (.NOT_OPEN_ERROR, [], f)
  else if f.content.length < off + size then (.OUT_OF_RANGE_ERROR, [], f)
  else (.SUCCESS, (f.content.drop off).take size, f)

/-- Modelled from the spec: `Write` (spec §4.1) - if offset+size exceeds the
logical size, the logical size is extended (not an error) and the physical size
grows through the Allocation Strategy when needed. -/
def BlockFile.Write (f : BlockFile) (off : Nat) (data : Bytes) : Status × BlockFile :=
  if !f.isOpen then (.NOT_OPEN_ERROR, f)
  else if !f.writable then (.INVALID_STATE_ERROR, f)
  else
    (.SUCCESS, { f with content := storeBytes f.content off data,
                        physSize := f.growPhys (storeBytes f.content off data).length })

/-- Modelled from the spec: `Append` (spec §4.1) - reserves an offset equal to the
current logical size, extends the logical size by the data size and writes there. -/
def BlockFile.Append (f : BlockFile) (data : Bytes) : Status × Nat × BlockFile :=
  if !f.isOpen then (.NOT_OPEN_ERROR, 0, f)
  else if !f.writable then (.INVALID_STATE_ERROR, 0, f)
  else
    (.SUCCESS, f.content.length,
     { f with content := f.content ++ data,
              physSize := f.growPhys (f.content.length + data.length) })

/-- Modelled from the spec: `Expand` (spec §4.1) - grows the logical size by
`incSize` without writing data (zero-filled per spec §8), returning the old size. -/
def BlockFile.Expand (f : BlockFile) (incSize : Nat) : Status × Nat × BlockFile :=
  if !f.isOpen then (.NOT_OPEN_ERROR, 0, f)
  else if !f.writable then (.INVALID_STATE_ERROR, 0, f)
  else
    (.SUCCESS, f.content.length,
     { f with content := f.content ++ List.replicate incSize 0,
              physSize := f.growPhys (f.content.length + incSize) })

/-- Modelled from the spec: `Truncate` (spec §4.1) - sets the logical size to
exactly `size`; growth is zero-filled (spec §8); when shrinking, the physical
size is not required to shrink immediately. -/
def BlockFile.Truncate (f : BlockFile) (size : Nat) : Status × BlockFile :=
  if !f.isOpen then (.NOT_OPEN_ERROR, f)
  else if !f.writable then (.INVALID_STATE_ERROR, f)
  else
    (.SUCCESS, { f with content := if size ≤ f.content.length
                          then f.content.take size else padTo f.content size,
                        physSize := f.growPhys size })

/-- Modelled from the spec: `Synchronize` (spec §4.1) - flushes buffering and
reconciles the physical size with the logical size for external inspection
(spec §6: only Synchronize guarantees the two are reconciled). -/
def BlockFile.Synchronize (f : BlockFile) (hard : Bool) : Status × BlockFile :=
  if !f.isOpen then (.NOT_OPEN_ERROR, f)
  else (.SUCCESS, { f with physSize := alignUp f.blockSize f.content.length })

/-- Modelled from the spec: `Rename` (spec §4.1) - changes the path of the open
file. -/
def BlockFile.Rename (f : BlockFile) (newPath : String) : Status × BlockFile :=
  if !f.isOpen then (.NOT_OPEN_ERROR, f)
  else (.SUCCESS, { f with path := newPath })

/-- The size invariant of spec §3: the block size is positive, the physical size
dominates the logical size, and the physical size is block-aligned. -/
def BlockFile.SizeInv (f : BlockFile) : Prop :=
  0 < f.blockSize ∧ f.content.length ≤ f.physSize ∧ f.blockSize ∣ f.physSize

instance (f : BlockFile) : Decidable f.SizeInv := by
  unfold BlockFile.SizeInv
  infer_instance

/-- The inter-process advisory lock registry of the surrounding system: the paths
currently holding an exclusive lock (spec §5: locks must be released exactly once
when Close runs, including the implicit close on destruction). -/
structure FileSys where
  locks : List String
deriving DecidableEq

/-- Modelled from the spec: `Close` against the lock registry (spec §4.1) - when
open, releases the advisory lock exactly once and the device handle; calling it
again (explicitly or from the destructor path) is a no-op on the handle and on
the registry, reported as `NOT_OPEN_ERROR`, never a double release. -/
def BlockFile.CloseSys (f : BlockFile) (sys : FileSys) : Status × BlockFile × FileSys :=
  if f.isOpen then
    (.SUCCESS, { f with isOpen := false, writable := false }, ⟨sys.locks.erase f.path⟩)
  else (.NOT_OPEN_ERROR, f, sys)

/-- Modelled from the spec: `Open` against the lock registry - a writer must find
the path unlocked (a held lock blocks the open, modelled as `LOCK_ERROR`), then
registers its exclusive advisory lock. -/
def BlockFile.OpenSys (f : BlockFile) (sys : FileSys) (path : String) (writable : Bool)
    (existing : Option Bytes) : Status × BlockFile × FileSys :=
  if path ∈ sys.locks then (.LOCK_ERROR, f, sys)
  else if (f.Open path writable existing).1 = .SUCCESS then
    (.SUCCESS, (f.Open path writable existing).2, ⟨path :: sys.locks⟩)
  else ((f.Open path writable existing).1, (f.Open path writable existing).2, sys)

/-- Modelled from the spec: the state of the `StdFile` atomic backend
(`tkrzw_file_std.h`, absent from the sources, exercised by
`tkrzw_file_std_test.cc`): an atomic-variant handle carrying the critical-section
sub-state {Unlocked, Locked} of spec §4.2. -/
structure StdFile where
  isOpen : Bool
  writable : Bool
  path : String
  content : Bytes
  lockHeld : Bool
deriving DecidableEq

/-- Modelled from the spec: `StdFile::Open` with the truncate option of the test
(content starts empty); fails with `ALREADY_OPEN_ERROR` when already open. -/
def StdFile.Open (f : StdFile) (path : String) (writable : Bool) : Status × StdFile :=
  if f.isOpen then (.ALREADY_OPEN_ERROR, f)
  else (.SUCCESS, ⟨true, writable, path, [], false⟩)

/-- Modelled from the spec: `StdFile::Write`, extending the logical size as
needed. -/
def StdFile.Write (f : StdFile) (off : Nat) (data : Bytes) : Status × StdFile :=
  if !f.isOpen then (.NOT_OPEN_ERROR, f)
  else if !f.writable then (.INVALID_STATE_ERROR, f)
  else (.SUCCESS, { f with content := storeBytes f.content off data })

/-- Modelled from the spec: `StdFile::Read` - fails with `OUT_OF_RANGE_ERROR`
past the logical size. -/
def StdFile.Read (f : StdFile) (off size : Nat) : Status × Bytes :=
  if !f.isOpen then (.NOT_OPEN_ERROR, [])
  else if f.content.length < off + size then (.OUT_OF_RANGE_ERROR, [])
  else (.SUCCESS, (f.content.drop off).take size)

/-- Modelled from the spec §4.2: `Lock` acquires exclusive ownership and returns
the current logical size, or the negative sentinel -1 on failure (handle not
open, or lock already held). -/
def StdFile.Lock (f : StdFile) : Int × StdFile :=
  if !f.isOpen then (-1, f)
  else if f.lockHeld then (-1, f)
  else ((f.content.length : Int), { f with lockHeld := true })

/-- Modelled from the spec §4.2: `Unlock` releases the lock and returns the
logical size after release, or the negative sentinel -1 on failure. -/
def StdFile.Unlock (f : StdFile) : Int × StdFile :=
  if !f.isOpen then (-1, f)
  else if !f.lockHeld then (-1, f)
  else ((f.content.length : Int), { f with lockHeld := false })

/-- Modelled from the spec §4.2: `WriteInCriticalSection` assumes the lock is
already held and performs the write without re-acquiring it. -/
def StdFile.WriteInCriticalSection (f : StdFile) (off : Nat) (data : Bytes) :
    Status × StdFile :=
  if !f.isOpen then (.NOT_OPEN_ERROR, f)
  else (.SUCCESS, { f with content := storeBytes f.content off data })

/-- Sequentially perform one `Append` per buffer - the linearization the Atomic
variant guarantees for N concurrent Append calls (spec §4.2, §5) - collecting
the reserved offsets. -/
def appendAll : BlockFile → List Bytes → List Nat × BlockFile
  | f, [] => ([], f)
  | f, data :: rest =>
      ((f.Append data).2.1 :: (appendAll (f.Append data).2.2 rest).1,
       (appendAll (f.Append data).2.2 rest).2)

/-- The offsets reserved by sequential appends of the given sizes starting at
logical size `L`: the partial sums. -/
def offsetsFrom (L : Nat) : List Nat → List Nat
  | [] => []
  | s :: rest => L :: offsetsFrom (L + s) rest

/-- An open writable empty handle with the default strategies, as produced by
opening a fresh path for writing. -/
def blockFixture : BlockFile := ⟨true, true, "file", 512, [], 0, ⟨1048576, 2⟩⟩

/-- A fresh, never-opened handle (the state a default-constructed handle or
`MakeFile` result is in). -/
def closedBlockFixture : BlockFile := ⟨false, false, "", 512, [], 0, ⟨1048576, 2⟩⟩

/-- A lock registry in which only the fixture's path is exclusively locked, the
state right after `blockFixture` was opened for writing. -/
def sysFixture : FileSys := ⟨["file"]⟩

/-- An open writable empty `StdFile`, as produced by the test's
`Open(file_path, true, OPEN_TRUNCATE)`. -/
def stdFixture : StdFile := ⟨true, true, "file", [], false⟩

/-- A fresh, never-opened `StdFile`. -/
def closedStdFixture : StdFile := ⟨false, false, "", [], false⟩

/-- The critical-section scenario of `StdFileTest.CriticalSection`: state after
writing "abc" at offset 0. -/
def csAfterAbc : StdFile := (stdFixture.Write 0 (asciiBytes "abc")).2

/-- The scenario's `Lock()` call: returns the logical size 3 and the locked
handle. -/
def csLock : Int × StdFile := csAfterAbc.Lock

/-- The scenario's state after `WriteInCriticalSection(2, "xyz")`. -/
def csAfterXyz : StdFile := (csLock.2.WriteInCriticalSection 2 (asciiBytes "xyz")).2

/-- The scenario's state after `WriteInCriticalSection(5, "123")`. -/
def csAfter123 : StdFile := (csAfterXyz.WriteInCriticalSection 5 (asciiBytes "123")).2

/-- The scenario's `Unlock()` call: returns the logical size 8 and the unlocked
handle. -/
def csUnlock : Int × StdFile := csAfter123.Unlock

/-- Any continuous form that folds bytes with `step` and applies `post` exactly on
the finalizing call turns chunk folding into the one-shot fold of the
concatenation. -/
theorem foldContinuous_foldl (step : Nat → Nat → Nat) (post : Nat → Nat)
    (cont : Bytes → Bool → Nat → Nat)
    (hc : ∀ data last st, cont data last st =
      if last then post (data.foldl step st) else data.foldl step st) :
    ∀ st chunks, foldContinuous cont st chunks = post ((chunks.flatten).foldl step st) := by
  intro st chunks
  induction chunks generalizing st with
  | nil => simp [foldContinuous, hc]
  | cons c rest ih =>
      cases rest with
      | nil => simp [foldContinuous, hc]
      | cons c2 rest2 =>
          have hstep : foldContinuous cont st (c :: c2 :: rest2)
              = foldContinuous cont (cont c false st) (c2 :: rest2) := rfl
          rw [hstep, ih, hc]
          simp [List.foldl_append]

/-- Folding chunks through the streaming Murmur form appends them all to the
accumulator and produces the one-shot digest of the concatenation. -/
theorem murmurFoldChunks_eq (chunks : List Bytes) :
    ∀ st : MurmurState,
      murmurFoldChunks st chunks = .done (HashMurmur (st.pending ++ chunks.flatten) st.seed) := by
  induction chunks with
  | nil => intro st; simp [murmurFoldChunks, HashMurmurContinuous]
  | cons c rest ih =>
      intro st
      cases rest with
      | nil => simp [murmurFoldChunks, HashMurmurContinuous]
      | cons c2 rest2 =>
          have hstep : murmurFoldChunks st (c :: c2 :: rest2)
              = murmurFoldChunks ⟨st.seed, st.pending ++ c⟩ (c2 :: rest2) := rfl
          rw [hstep, ih]
          simp [List.append_assoc]

example : HashMurmur (asciiBytes "Hello World") 19780211 = 0x15941D6097FA1378 := by decide
example : HashFNV (asciiBytes "Hello World") = 0x9AA143013F1E405F := by decide
example : HashCRC32 (asciiBytes "hello") = 0x3610A686 := by decide
example : HashCRC16 (asciiBytes "hello") = 0xC362 := by decide
example : HashCRC8 (asciiBytes "hello") = 0x92 := by decide
example : HashCRC4 (asciiBytes "hello") = 0xD := by decide
example : HashCRC4 (asciiBytes "Hello World") = 0x9 := by decide
example : HashCRC32 (asciiBytes "Hello World") = 0x4A17B156 := by decide

example :
    foldContinuous HashCRC32Continuous 0xFFFFFFFF
      [asciiBytes "Hello", asciiBytes " ", asciiBytes "World"] = 0x4A17B156 := by decide

example :
    foldContinuous HashCRC4Continuous 0
      [asciiBytes "Hello", asciiBytes " ", asciiBytes "World"] = 0x9 := by decide

example :
    murmurFoldChunks ⟨19780211, []⟩
      [asciiBytes "Hello", asciiBytes " ", asciiBytes "World"] =
      .done 0x15941D6097FA1378 := by decide

/-- C1: for every hash algorithm variant (Murmur, FNV, CRC4, CRC8, CRC16, CRC32)
and every partitioning of a byte buffer into chunks, folding the chunks in order
through the streaming continuous form, passing each intermediate result as the
prior state and setting the last flag only on the final chunk, yields exactly the
digest the one-shot form produces over the concatenation of all chunks. -/
theorem c1_hash_chunk_folding (chunks : List Bytes) (seed : Nat) :
    murmurFoldChunks ⟨seed, []⟩ chunks = .done (HashMurmur chunks.flatten seed)
  ∧ foldContinuous HashFNVContinuous fnvInit chunks = HashFNV chunks.flatten
  ∧ foldContinuous HashCRC4Continuous 0 chunks = HashCRC4 chunks.flatten
  ∧ foldContinuous HashCRC8Continuous 0 chunks = HashCRC8 chunks.flatten
  ∧ foldContinuous HashCRC16Continuous 0 chunks = HashCRC16 chunks.flatten
  ∧ foldContinuous HashCRC32Continuous 0xFFFFFFFF chunks = HashCRC32 chunks.flatten := by
  refine ⟨?_, ?_, ?_, ?_, ?_, ?_⟩
  · simpa using murmurFoldChunks_eq chunks ⟨seed, []⟩
  · rw [foldContinuous_foldl fnvUpdate (fun r => r) HashFNVContinuous
      (by intro data last st; cases last <;> simp [HashFNVContinuous])]
    rfl
  · rw [foldContinuous_foldl crc4Byte (fun r => r) HashCRC4Continuous
      (by intro data last st; cases last <;> simp [HashCRC4Continuous])]
    rfl
  · rw [foldContinuous_foldl crc8Byte (fun r => r) HashCRC8Continuous
      (by intro data last st; cases last <;> simp [HashCRC8Continuous])]
    rfl
  · rw [foldContinuous_foldl crc16Byte (fun r => r) HashCRC16Continuous
      (by intro data last st; cases last <;> simp [HashCRC16Continuous])]
    rfl
  · rw [foldContinuous_foldl crc32Byte (fun r => r ^^^ 0xFFFFFFFF) HashCRC32Continuous
      (by intro data last st; cases last <;> simp [HashCRC32Continuous])]
    rfl

/-- C3: the one-shot hash functions return the exact literal test-vector values:
Murmur of "Hello World" with seed 19780211 is 0x15941D6097FA1378, FNV of
"Hello World" is 0x9AA143013F1E405F, CRC32 of "hello" is 0x3610A686 and CRC8 of
"hello" is 0x92. -/
theorem c3_hash_literal_vectors :
    HashMurmur (asciiBytes "Hello World") 19780211 = 0x15941D6097FA1378
  ∧ HashFNV (asciiBytes "Hello World") = 0x9AA143013F1E405F
  ∧ HashCRC32 (asciiBytes "hello") = 0x3610A686
  ∧ HashCRC8 (asciiBytes "hello") = 0x92 :=
  ⟨by decide, by decide, by decide, by decide⟩

/-- Block alignment divides the rounded-up size. -/
theorem alignUp_dvd (bs n : Nat) : bs ∣ alignUp bs n :=
  Dvd.intro_left _ rfl

/-- Rounding up to block alignment never shrinks below the requested size. -/
theorem le_alignUp (bs n : Nat) (h : 0 < bs) : n ≤ alignUp bs n := by
  unfold alignUp
  rw [Nat.mul_comm]
  generalize hq : (n + bs - 1) / bs = q
  have h1 : bs * q + (n + bs - 1) % bs = n + bs - 1 := by
    rw [← hq]; exact Nat.div_add_mod _ _
  have h2 : (n + bs - 1) % bs < bs := Nat.mod_lt _ h
  generalize bs * q = m at h1 ⊢
  omega

/-- The next physical size covers the needed size. -/
theorem growPhys_le (f : BlockFile) (needed : Nat) (h : 0 < f.blockSize) :
    needed ≤ f.growPhys needed := by
  unfold BlockFile.growPhys
  split
  · assumption
  · exact le_trans (Nat.le_max_left _ _) (le_alignUp _ _ h)

/-- The next physical size stays block-aligned. -/
theorem growPhys_dvd (f : BlockFile) (needed : Nat) (hdvd : f.blockSize ∣ f.physSize) :
    f.blockSize ∣ f.growPhys needed := by
  unfold BlockFile.growPhys
  split
  · exact hdvd
  · exact alignUp_dvd _ _

/-- Zero-filling reaches exactly the requested length, or keeps a longer buffer. -/
theorem padTo_length (c : Bytes) (n : Nat) : (padTo c n).length = max c.length n := by
  simp [padTo]
  omega

/-- Writing at an offset extends the logical size to `max old (off + |data|)`. -/
theorem storeBytes_length (c : Bytes) (off : Nat) (d : Bytes) :
    (storeBytes c off d).length = max c.length (off + d.length) := by
  unfold storeBytes
  simp [padTo_length]
  omega

/-- Reading back the just-written range returns exactly the written bytes. -/
theorem storeBytes_read (c : Bytes) (off : Nat) (d : Bytes) :
    ((storeBytes c off d).drop off).take d.length = d := by
  have hlen : ((padTo c (off + d.length)).take off).length = off := by
    simp [List.length_take, padTo_length]
  unfold storeBytes
  rw [List.append_assoc, List.drop_append_eq_append_drop, hlen,
      List.drop_eq_nil_of_le (le_of_eq hlen), Nat.sub_self, List.nil_append,
      List.drop_zero, List.take_left]

/-- C2: on an open writable file, `Write(O, B)` then `Read(O, |B|)` returns
exactly B, byte for byte; when O+|B| exceeds the current logical size the write
extends the logical size to `max old (O+|B|)` instead of failing. -/
theorem c2_write_read_roundtrip (f : BlockFile) (off : Nat) (data : Bytes)
    (ho : f.isOpen = true) (hw : f.writable = true) :
    ∃ f2 : BlockFile,
      f.Write off data = (.SUCCESS, f2)
      ∧ f2.content.length = max f.content.length (off + data.length)
      ∧ f2.Read off data.length = (.SUCCESS, data, f2) := by
  refine ⟨{ f with
              content := storeBytes f.content off data,
              physSize := f.growPhys (storeBytes f.content off data).length }, ?_, ?_, ?_⟩
  · simp [BlockFile.Write, ho, hw]
  · exact storeBytes_length f.content off data
  · have hle : off + data.length ≤ (storeBytes f.content off data).length := by
      rw [storeBytes_length]
      exact le_max_right _ _
    simp [BlockFile.Read, ho, Nat.not_lt.mpr hle, storeBytes_read]

/-- C2 witness: the round trip at a concrete file, offset 3 past the empty
logical content, and the two-byte buffer [7, 8]. -/
theorem c2_write_read_roundtrip_witness :
    blockFixture.isOpen = true ∧ blockFixture.writable = true ∧
    ∃ f2 : BlockFile,
      blockFixture.Write 3 [7, 8] = (.SUCCESS, f2)
      ∧ f2.content.length = max blockFixture.content.length (3 + ([7, 8] : Bytes).length)
      ∧ f2.Read 3 ([7, 8] : Bytes).length = (.SUCCESS, [7, 8], f2) :=
  ⟨rfl, rfl, c2_write_read_roundtrip blockFixture 3 [7, 8] rfl rfl⟩

/-- C4: a read whose offset+size strictly exceeds the logical size fails with
`OUT_OF_RANGE_ERROR` and leaves the handle - hence both logical and physical
size - unchanged; in particular, after `Truncate` to a smaller size, a read past
the new size fails the same way on the unchanged handle. -/
theorem c4_read_out_of_range (f : BlockFile) (off size : Nat)
    (ho : f.isOpen = true) (hpast : f.content.length < off + size) :
    f.Read off size = (.OUT_OF_RANGE_ERROR, [], f)
  ∧ ∀ newSize off2 size2, f.writable = true → newSize ≤ f.content.length →
      newSize < off2 + size2 →
      (f.Truncate newSize).1 = .SUCCESS ∧
      (f.Truncate newSize).2.Read off2 size2
        = (.OUT_OF_RANGE_ERROR, [], (f.Truncate newSize).2) := by
  constructor
  · simp [BlockFile.Read, ho, hpast]
  · intro newSize off2 size2 hw hsmall hpast2
    have htr : f.Truncate newSize
        = (.SUCCESS, { f with
                         content := f.content.take newSize,
                         physSize := f.growPhys newSize }) := by
      simp [BlockFile.Truncate, ho, hw, hsmall]
    rw [htr]
    have hlen : (f.content.take newSize).length = newSize := by
      simp [List.length_take]
      omega
    constructor
    · rfl
    · simp [BlockFile.Read, ho, hlen, hpast2]

/-- C4 witness: a concrete out-of-range read on the empty open file, and a
truncate-to-zero followed by an out-of-range read. -/
theorem c4_read_out_of_range_witness :
    blockFixture.isOpen = true ∧ blockFixture.content.length < 0 + 1 ∧
    (blockFixture.Read 0 1 = (.OUT_OF_RANGE_ERROR, [], blockFixture)
     ∧ (blockFixture.Truncate 0).1 = .SUCCESS
     ∧ (blockFixture.Truncate 0).2.Read 2 3
        = (.OUT_OF_RANGE_ERROR, [], (blockFixture.Truncate 0).2)) :=
  have h := c4_read_out_of_range blockFixture 0 1 rfl (by decide)
  ⟨rfl, by decide, h.1, (h.2 0 2 3 rfl (by decide) (by decide)).1,
   (h.2 0 2 3 rfl (by decide) (by decide)).2⟩

/-- C7: `Truncate` to a size larger than the current logical size followed by a
read of any part of the expanded region succeeds and returns only zero bytes. -/
theorem c7_truncate_zero_fill (f : BlockFile) (newSize off size : Nat)
    (ho : f.isOpen = true) (hw : f.writable = true)
    (hgrow : f.content.length < newSize)
    (hoff : f.content.length ≤ off) (hend : off + size ≤ newSize) :
    ∃ f2 : BlockFile,
      f.Truncate newSize = (.SUCCESS, f2)
      ∧ f2.content.length = newSize
      ∧ f2.Read off size = (.SUCCESS, List.replicate size 0, f2) := by
  have hnot : ¬ newSize ≤ f.content.length := Nat.not_le.mpr hgrow
  refine ⟨{ f with
              content := padTo f.content newSize,
              physSize := f.growPhys newSize }, ?_, ?_, ?_⟩
  · simp [BlockFile.Truncate, ho, hw, hnot]
  · rw [padTo_length]; omega
  · have hlen : (padTo f.content newSize).length = newSize := by
      rw [padTo_length]; omega
    have hread : ((padTo f.content newSize).drop off).take size
        = List.replicate size 0 := by
      unfold padTo
      rw [show off = f.content.length + (off - f.content.length) by omega,
          List.drop_append, List.drop_replicate, List.take_replicate]
      congr 1
      omega
    simp [BlockFile.Read, ho, hlen, Nat.not_lt.mpr hend, hread]

/-- C7 witness: truncating the empty open file to 6 and reading 2 bytes at
offset 3 of the expanded region yields two zero bytes. -/
theorem c7_truncate_zero_fill_witness :
    blockFixture.isOpen = true ∧ blockFixture.writable = true
    ∧ blockFixture.content.length < 6 ∧ blockFixture.content.length ≤ 3 ∧ 3 + 2 ≤ 6
    ∧ ∃ f2 : BlockFile,
        blockFixture.Truncate 6 = (.SUCCESS, f2)
        ∧ f2.content.length = 6
        ∧ f2.Read 3 2 = (.SUCCESS, List.replicate 2 0, f2) :=
  ⟨rfl, rfl, by decide, by decide, by decide,
   c7_truncate_zero_fill blockFixture 6 3 2 rfl rfl (by decide) (by decide) (by decide)⟩

/-- C5: after every operation (Open, Read, Write, Append, Expand, Truncate,
Synchronize, Rename) on a handle satisfying the size invariant, the invariant
still holds - physical size ≥ logical size and physical size a multiple of the
block size - and the block size fixed at open time is unchanged. -/
theorem c5_size_invariant (f : BlockFile) (hinv : f.SizeInv) :
    (∀ path writable existing, ((f.Open path writable existing).2).SizeInv
      ∧ (f.Open path writable existing).2.blockSize = f.blockSize)
  ∧ (∀ off size, ((f.Read off size).2.2).SizeInv
      ∧ (f.Read off size).2.2.blockSize = f.blockSize)
  ∧ (∀ off data, ((f.Write off data).2).SizeInv
      ∧ (f.Write off data).2.blockSize = f.blockSize)
  ∧ (∀ data, ((f.Append data).2.2).SizeInv
      ∧ (f.Append data).2.2.blockSize = f.blockSize)
  ∧ (∀ incSize, ((f.Expand incSize).2.2).SizeInv
      ∧ (f.Expand incSize).2.2.blockSize = f.blockSize)
  ∧ (∀ size, ((f.Truncate size).2).SizeInv
      ∧ (f.Truncate size).2.blockSize = f.blockSize)
  ∧ (∀ hard, ((f.Synchronize hard).2).SizeInv
      ∧ (f.Synchronize hard).2.blockSize = f.blockSize)
  ∧ (∀ newPath, ((f.Rename newPath).2).SizeInv
      ∧ (f.Rename newPath).2.blockSize = f.blockSize) := by
  obtain ⟨hbs, hle, hdvd⟩ := hinv
  refine ⟨?_, ?_, ?_, ?_, ?_, ?_, ?_, ?_⟩
  · intro path writable existing
    cases existing with
    | none =>
        cases writable with
        | false =>
            unfold BlockFile.Open
            split
            · exact ⟨⟨hbs, hle, hdvd⟩, rfl⟩
            · exact ⟨⟨hbs, hle, hdvd⟩, rfl⟩
        | true =>
            unfold BlockFile.Open
            split
            · exact ⟨⟨hbs, hle, hdvd⟩, rfl⟩
            · exact ⟨⟨hbs, le_rfl, dvd_zero _⟩, rfl⟩
    | some bytes =>
        unfold BlockFile.Open
        split
        · exact ⟨⟨hbs, hle, hdvd⟩, rfl⟩
        · exact ⟨⟨hbs, le_alignUp _ _ hbs, alignUp_dvd _ _⟩, rfl⟩
  · intro off size
    unfold BlockFile.Read
    split
    · exact ⟨⟨hbs, hle, hdvd⟩, rfl⟩
    · split
      · exact ⟨⟨hbs, hle, hdvd⟩, rfl⟩
      · exact ⟨⟨hbs, hle, hdvd⟩, rfl⟩
  · intro off data
    unfold BlockFile.Write
    split
    · exact ⟨⟨hbs, hle, hdvd⟩, rfl⟩
    · split
      · exact ⟨⟨hbs, hle, hdvd⟩, rfl⟩
      · exact ⟨⟨hbs, growPhys_le f _ hbs, growPhys_dvd f _ hdvd⟩, rfl⟩
  · intro data
    unfold BlockFile.Append
    split
    · exact ⟨⟨hbs, hle, hdvd⟩, rfl⟩
    · split
      · exact ⟨⟨hbs, hle, hdvd⟩, rfl⟩
      · refine ⟨⟨hbs, ?_, growPhys_dvd f _ hdvd⟩, rfl⟩
        rw [List.length_append]
        exact growPhys_le f _ hbs
  · intro incSize
    unfold BlockFile.Expand
    split
    · exact ⟨⟨hbs, hle, hdvd⟩, rfl⟩
    · split
      · exact ⟨⟨hbs, hle, hdvd⟩, rfl⟩
      · refine ⟨⟨hbs, ?_, growPhys_dvd f _ hdvd⟩, rfl⟩
        rw [List.length_append, List.length_replicate]
        exact growPhys_le f _ hbs
  · intro size
    unfold BlockFile.Truncate
    split
    · exact ⟨⟨hbs, hle, hdvd⟩, rfl⟩
    · split
      · exact ⟨⟨hbs, hle, hdvd⟩, rfl⟩
      · refine ⟨⟨hbs, ?_, growPhys_dvd f _ hdvd⟩, rfl⟩
        show (if size ≤ f.content.length then f.content.take size
              else padTo f.content size).length ≤ f.growPhys size
        split
        next hc =>
          have h1 : (f.content.take size).length ≤ size := by
            simp [List.length_take]
          exact le_trans h1 (growPhys_le f _ hbs)
        next hc =>
          have h1 : (padTo f.content size).length = max f.content.length size :=
            padTo_length _ _
          have h2 := growPhys_le f size hbs
          rw [h1]
          omega
  · intro hard
    unfold BlockFile.Synchronize
    split
    · exact ⟨⟨hbs, hle, hdvd⟩, rfl⟩
    · exact ⟨⟨hbs, le_alignUp _ _ hbs, alignUp_dvd _ _⟩, rfl⟩
  · intro newPath
    unfold BlockFile.Rename
    split
    · exact ⟨⟨hbs, hle, hdvd⟩, rfl⟩
    · exact ⟨⟨hbs, hle, hdvd⟩, rfl⟩

/-- C5 witness: the invariant holds on the concrete open fixture and is kept by a
concrete write of one byte. -/
theorem c5_size_invariant_witness :
    blockFixture.SizeInv ∧ ((blockFixture.Write 0 [1]).2).SizeInv :=
  ⟨by decide, ((c5_size_invariant blockFixture (by decide)).2.2.1 0 [1]).1⟩

/-- C6: for the Atomic variant with the lock not already held, `Lock()` returns
the current logical size (a non-negative value) and locks the handle; `Unlock()`
on a locked handle returns the logical size after release; concretely, after
writing "abc" at offset 0, Lock returns 3, `WriteInCriticalSection(2, "xyz")` and
`WriteInCriticalSection(5, "123")` both succeed, Unlock returns 8, and a
subsequent `Read(0, 8)` yields exactly "abxyz123". -/
theorem c6_critical_section (f : StdFile) (ho : f.isOpen = true)
    (hl : f.lockHeld = false) :
    (f.Lock = ((f.content.length : Int), { f with lockHeld := true })
      ∧ 0 ≤ (f.Lock).1)
  ∧ (∀ g : StdFile, g.isOpen = true → g.lockHeld = true →
      g.Unlock = ((g.content.length : Int), { g with lockHeld := false }))
  ∧ ((stdFixture.Write 0 (asciiBytes "abc")).1 = .SUCCESS
     ∧ csLock.1 = 3
     ∧ (csLock.2.WriteInCriticalSection 2 (asciiBytes "xyz")).1 = .SUCCESS
     ∧ (csAfterXyz.WriteInCriticalSection 5 (asciiBytes "123")).1 = .SUCCESS
     ∧ csUnlock.1 = 8
     ∧ csUnlock.2.Read 0 8 = (.SUCCESS, asciiBytes "abxyz123")) := by
  have hlock : f.Lock = ((f.content.length : Int), { f with lockHeld := true }) := by
    simp [StdFile.Lock, ho, hl]
  refine ⟨⟨hlock, ?_⟩, ?_, ?_⟩
  · rw [hlock]
    exact Int.natCast_nonneg _
  · intro g hgo hgl
    simp [StdFile.Unlock, hgo, hgl]
  · exact ⟨by decide, by decide, by decide, by decide, by decide, by decide⟩

/-- C6 witness: the handle after writing "abc" is open with the lock free, and
its Lock result is non-negative. -/
theorem c6_critical_section_witness :
    csAfterAbc.isOpen = true ∧ csAfterAbc.lockHeld = false
    ∧ 0 ≤ (csAfterAbc.Lock).1 :=
  ⟨by decide, by decide, (c6_critical_section csAfterAbc (by decide) (by decide)).1.2⟩

/-- C10: `Lock()` or `Unlock()` on a handle that has never been opened returns
the negative sentinel -1 without changing the handle, and the handle can still
be opened successfully afterwards. -/
theorem c10_lock_unopened (f : StdFile) (h : f.isOpen = false) :
    f.Lock = (-1, f) ∧ f.Unlock = (-1, f)
  ∧ ∀ path, (f.Open path true).1 = .SUCCESS ∧ (f.Open path true).2.isOpen = true := by
  refine ⟨?_, ?_, ?_⟩
  · simp [StdFile.Lock, h]
  · simp [StdFile.Unlock, h]
  · intro path
    simp [StdFile.Open, h]

/-- C10 witness: the sentinel and state preservation at the concrete never-opened
handle. -/
theorem c10_lock_unopened_witness :
    closedStdFixture.isOpen = false
    ∧ closedStdFixture.Lock = (-1, closedStdFixture) :=
  ⟨rfl, (c10_lock_unopened closedStdFixture rfl).1⟩

/-- C8: Close on an open handle succeeds and releases the advisory lock exactly
once; a second Close (explicit, or the implicit one on destruction) is a strict
no-op on the handle and on the lock registry - no double release - the path is
no longer locked, and a second handle can immediately open the same path
successfully. -/
theorem c8_close_idempotent (f : BlockFile) (sys : FileSys) (g : BlockFile)
    (ho : f.isOpen = true) (hreg : sys.locks.count f.path = 1)
    (hg : g.isOpen = false) :
    (f.CloseSys sys).1 = .SUCCESS
  ∧ ((f.CloseSys sys).2.1.CloseSys (f.CloseSys sys).2.2)
      = (.NOT_OPEN_ERROR, (f.CloseSys sys).2.1, (f.CloseSys sys).2.2)
  ∧ f.path ∉ ((f.CloseSys sys).2.2).locks
  ∧ (g.OpenSys (f.CloseSys sys).2.2 f.path true none).1 = .SUCCESS := by
  have hclose : f.CloseSys sys
      = (.SUCCESS, { f with isOpen := false, writable := false },
         ⟨sys.locks.erase f.path⟩) := by
    simp [BlockFile.CloseSys, ho]
  have hnotmem : f.path ∉ sys.locks.erase f.path := by
    rw [← List.count_eq_zero, List.count_erase_self, hreg]
  rw [hclose]
  refine ⟨rfl, ?_, hnotmem, ?_⟩
  · simp [BlockFile.CloseSys]
  · simp [BlockFile.OpenSys, hnotmem, BlockFile.Open, hg]

/-- C8 witness: closing the concrete open fixture against the registry holding
exactly its lock. -/
theorem c8_close_idempotent_witness :
    blockFixture.isOpen = true ∧ sysFixture.locks.count blockFixture.path = 1
    ∧ closedBlockFixture.isOpen = false
    ∧ (blockFixture.CloseSys sysFixture).1 = .SUCCESS :=
  ⟨rfl, by decide, rfl,
   (c8_close_idempotent blockFixture sysFixture closedBlockFixture rfl
     (by decide) rfl).1⟩

/-- Appending buffer by buffer reserves exactly the partial-sum offsets, grows the
logical size by the total length, and keeps the handle open and writable. -/
theorem appendAll_eq (bufs : List Bytes) :
    ∀ f : BlockFile, f.isOpen = true → f.writable = true →
      (appendAll f bufs).1 = offsetsFrom f.content.length (bufs.map List.length)
      ∧ (appendAll f bufs).2.content.length
          = f.content.length + (bufs.map List.length).sum
      ∧ (appendAll f bufs).2.isOpen = true
      ∧ (appendAll f bufs).2.writable = true := by
  induction bufs with
  | nil =>
      intro f ho hw
      exact ⟨rfl, by simp [appendAll, offsetsFrom], ho, hw⟩
  | cons d rest ih =>
      intro f ho hw
      have hA : f.Append d = (.SUCCESS, f.content.length,
          { f with
              content := f.content ++ d,
              physSize := f.growPhys (f.content.length + d.length) }) := by
        simp [BlockFile.Append, ho, hw]
      have happ : appendAll f (d :: rest)
          = ((f.Append d).2.1 :: (appendAll (f.Append d).2.2 rest).1,
             (appendAll (f.Append d).2.2 rest).2) := rfl
      rw [happ, hA]
      obtain ⟨ih1, ih2, ih3, ih4⟩ := ih
        { f with
            content := f.content ++ d,
            physSize := f.growPhys (f.content.length + d.length) } ho hw
      refine ⟨?_, ?_, ih3, ih4⟩
      · simp only [List.map_cons, offsetsFrom, ih1]
        simp
      · rw [ih2]
        simp
        omega

/-- The offsets list has one entry per append. -/
theorem offsetsFrom_length (sizes : List Nat) :
    ∀ L, (offsetsFrom L sizes).length = sizes.length := by
  induction sizes with
  | nil => intro L; rfl
  | cons s rest ih => intro L; simp [offsetsFrom, ih]

/-- Every range in the zipped offsets/sizes list starts at or after `L`. -/
theorem offsetsFrom_mem_ge (sizes : List Nat) :
    ∀ L p, p ∈ (offsetsFrom L sizes).zip sizes → L ≤ p.1 := by
  induction sizes with
  | nil =>
      intro L p hp
      simp [offsetsFrom] at hp
  | cons s rest ih =>
      intro L p hp
      simp only [offsetsFrom, List.zip_cons_cons, List.mem_cons] at hp
      rcases hp with h | h
      · rw [h]
      · exact le_trans (Nat.le_add_right L s) (ih (L + s) p h)

/-- The reserved ranges are pairwise disjoint (each earlier range ends before the
later one starts, stated symmetrically). -/
theorem offsetsFrom_pairwise (sizes : List Nat) :
    ∀ L, ((offsetsFrom L sizes).zip sizes).Pairwise
      (fun p q => p.1 + p.2 ≤ q.1 ∨ q.1 + q.2 ≤ p.1) := by
  induction sizes with
  | nil => intro L; simp [offsetsFrom]
  | cons s rest ih =>
      intro L
      simp only [offsetsFrom, List.zip_cons_cons]
      refine List.Pairwise.cons ?_ (ih (L + s))
      intro q hq
      exact Or.inl (offsetsFrom_mem_ge rest (L + s) q hq)

/-- Coverage: `x` lies in `[L, L + total)` exactly when it lies in one of the
reserved ranges. -/
theorem offsetsFrom_cover (sizes : List Nat) :
    ∀ L x, (L ≤ x ∧ x < L + sizes.sum) ↔
      ∃ p ∈ (offsetsFrom L sizes).zip sizes, p.1 ≤ x ∧ x < p.1 + p.2 := by
  induction sizes with
  | nil =>
      intro L x
      simp [offsetsFrom]
  | cons s rest ih =>
      intro L x
      simp only [offsetsFrom, List.zip_cons_cons, List.mem_cons, List.sum_cons]
      constructor
      · rintro ⟨h1, h2⟩
        by_cases hx : x < L + s
        · exact ⟨(L, s), Or.inl rfl, h1, hx⟩
        · obtain ⟨p, hp, hx1, hx2⟩ := (ih (L + s) x).mp ⟨by omega, by omega⟩
          exact ⟨p, Or.inr hp, hx1, hx2⟩
      · rintro ⟨p, hp | hp, hx1, hx2⟩
        · subst hp
          simp only at hx1 hx2
          omega
        · have hin := (ih (L + s) x).mpr ⟨p, hp, hx1, hx2⟩
          omega

/-- C9: under the Atomic variant - whose locking serializes concurrent calls into
some total order - N Append calls reserve N pairwise disjoint, non-overlapping
offset ranges whose union exactly covers the interval from the initial logical
size to the final logical size. -/
theorem c9_append_disjoint_cover (f : BlockFile) (bufs : List Bytes)
    (ho : f.isOpen = true) (hw : f.writable = true) :
    (appendAll f bufs).1 = offsetsFrom f.content.length (bufs.map List.length)
  ∧ (appendAll f bufs).1.length = bufs.length
  ∧ (appendAll f bufs).2.content.length
      = f.content.length + (bufs.map List.length).sum
  ∧ ((appendAll f bufs).1.zip (bufs.map List.length)).Pairwise
      (fun p q => p.1 + p.2 ≤ q.1 ∨ q.1 + q.2 ≤ p.1)
  ∧ ∀ x, (f.content.length ≤ x
        ∧ x < f.content.length + (bufs.map List.length).sum)
      ↔ ∃ p ∈ (appendAll f bufs).1.zip (bufs.map List.length),
          p.1 ≤ x ∧ x < p.1 + p.2 := by
  obtain ⟨h1, h2, _, _⟩ := appendAll_eq bufs f ho hw
  refine ⟨h1, ?_, h2, ?_, ?_⟩
  · rw [h1, offsetsFrom_length, List.length_map]
  · rw [h1]
    exact offsetsFrom_pairwise _ _
  · intro x
    rw [h1]
    exact offsetsFrom_cover _ _ x

/-- C9 witness: three concrete appends of sizes 2, 1, 3 on the empty open
fixture reserve the partial-sum offsets. -/
theorem c9_append_disjoint_cover_witness :
    blockFixture.isOpen = true ∧ blockFixture.writable = true
    ∧ (appendAll blockFixture [[1, 2], [3], [4, 5, 6]]).1
        = offsetsFrom blockFixture.content.length
            (([[1, 2], [3], [4, 5, 6]] : List Bytes).map List.length) :=
  ⟨rfl, rfl,
   (c9_append_disjoint_cover blockFixture [[1, 2], [3], [4, 5, 6]] rfl rfl).1⟩
